import Mathlib

/-
Shallow embedding of the pythonping core (src/pythonping/__init__.py and
src/pythonping/executor.py) together with proofs about the spec's claims.

Modelling conventions:
- Python float arithmetic over times and fractions is embedded as exact
  rational arithmetic (ℚ).
- The icmp module is not part of the sources; the ICMP record below carries
  the fields executor.py reads (id, message_type, message_code, payload),
  following the spec's Packet data model, and Echo Request's type id is 8
  per the spec's wire table.
- I/O (sockets, verbose printing, sleeping) is made explicit: received
  traffic becomes a trace of receive events, attempt durations become a
  list of rationals, and exceptions become Except / Option results.
-/

namespace PythonPing

/-- Modelled from the spec: the parsed ICMP packet (the icmp module is not
among the sources). Fields are those executor.py reads: `message_type`,
`message_code`, `id` (identifier) and `payload`; spec section 3 lists the
same fields for Packet. -/
structure ICMP where
  message_type : Nat
  message_code : Nat
  id : Nat
  payload : List Nat
  deriving DecidableEq, Repr

/-- Modelled from the spec: Echo Request is ICMP type 8 (spec wire table;
`icmp.Types.EchoRequest.type_id` in the source). -/
def EchoRequest_type_id : Nat := 8

/-- executor.Message: an ICMP packet paired with target and source address. -/
structure Message where
  target : String
  packet : ICMP
  source : String
  deriving DecidableEq, Repr

/-- executor.Response: an optional received message plus the elapsed time. -/
structure Response where
  message : Option Message
  time_elapsed : ℚ
  deriving DecidableEq, Repr

/-- The sixteen Destination Unreachable reasons of executor.Response.error_message. -/
def unreachable_messages : List String :=
  ["Network Unreachable",
   "Host Unreachable",
   "Protocol Unreachable",
   "Port Unreachable",
   "Fragmentation Required",
   "Source Route Failed",
   "Network Unknown",
   "Host Unknown",
   "Source Host Isolated",
   "Communication with Destination Network is Administratively Prohibited",
   "Communication with Destination Host is Administratively Prohibited",
   "Network Unreachable for ToS",
   "Host Unreachable for ToS",
   "Communication Administratively Prohibited",
   "Host Precedence Violation",
   "Precedence Cutoff in Effect"]

/-- executor.Response.error_message: none means no error. The IndexError
guard of the source is the getD default. -/
def Response.error_message (r : Response) : Option String :=
  match r.message with
  | none => some "No response"
  | some m =>
    if m.packet.message_type = 0 ∧ m.packet.message_code = 0 then
      none
    else if m.packet.message_type = 3 then
      some (unreachable_messages.getD m.packet.message_code "Unreachable")
    else
      some "Network Error"

/-- executor.Response.success: true iff error_message is None. -/
def Response.success (r : Response) : Bool :=
  r.error_message.isNone

/-- executor.SuccessOn thresholds. -/
inductive SuccessOn where
  | One
  | Most
  | All
  deriving DecidableEq, Repr

/-- executor.ResponseList: the ordered responses plus the incrementally
maintained statistics fields (verbose output and the start/stop timestamps
play no part in the claims and are omitted). -/
structure ResponseList where
  _responses : List Response
  rtt_avg : ℚ
  rtt_min : ℚ
  rtt_max : ℚ
  packets_lost : ℚ
  deriving DecidableEq, Repr

/-- ResponseList.__init__ with no initial set: all statistics start at 0. -/
def ResponseList.empty : ResponseList :=
  ⟨[], 0, 0, 0, 0⟩

/-- len(self) for a ResponseList. -/
def ResponseList.len (rl : ResponseList) : Nat :=
  rl._responses.length

/-- executor.ResponseList.append. On the first element all three RTT fields
are set to its elapsed time; afterwards the average is recomputed from the
running total and min/max are updated under strict comparisons. The loss
update mirrors the source expression
`packets_lost + (0 if value.success else 1 - packets_lost) / len(self)`
with its Python precedence: the conditional as a whole is divided. -/
def ResponseList.append (rl : ResponseList) (value : Response) : ResponseList :=
  let responses := rl._responses ++ [value]
  let n : ℚ := (responses.length : ℚ)
  if responses.length = 1 then
    { _responses := responses
      rtt_avg := value.time_elapsed
      rtt_min := value.time_elapsed
      rtt_max := value.time_elapsed
      packets_lost := rl.packets_lost + (if value.success then 0 else 1 - rl.packets_lost) / n }
  else
    { _responses := responses
      rtt_avg := (rl.rtt_avg * (n - 1) + value.time_elapsed) / n
      rtt_min := if value.time_elapsed < rl.rtt_min then value.time_elapsed else rl.rtt_min
      rtt_max := if value.time_elapsed > rl.rtt_max then value.time_elapsed else rl.rtt_max
      packets_lost := rl.packets_lost + (if value.success then 0 else 1 - rl.packets_lost) / n }

/-- Appending a whole list of responses in order. -/
def ResponseList.appendAll (rl : ResponseList) (rs : List Response) : ResponseList :=
  rs.foldl ResponseList.append rl

/-- executor.ResponseList.success. The Most branch divides by the number of
responses; dividing by zero raises in Python, which the embedding returns
as none. The other branches always return a boolean. -/
def ResponseList.success (rl : ResponseList) (option : SuccessOn) : Option Bool :=
  let success_list := rl._responses.map Response.success
  match option with
  | SuccessOn.One => some (success_list.contains true)
  | SuccessOn.Most =>
    if success_list.length = 0 then none
    else some (decide ((success_list.count true : ℚ) / (success_list.length : ℚ) > 1/2))
  | SuccessOn.All => some (!success_list.contains false)

/-- One call of socket.receive inside Communicator.listen_for: `raw` is the
parsed packet when raw bytes arrived (none embeds the empty-bytes result of
an exhausted receive), `source` is the reporting address, and `time_left` is
the remaining budget the transport hands back. -/
structure RecvEvent where
  raw : Option ICMP
  source : String
  time_left : ℚ
  deriving DecidableEq, Repr

/-- The acceptance test of Communicator.listen_for on a parsed packet:
identifier equal, type not Echo Request, and, when a payload pattern is
given, byte-for-byte payload equality. -/
def matchesReply (packet_id : Nat) (payload_pattern : Option (List Nat))
    (response : ICMP) : Bool :=
  response.id == packet_id &&
    response.message_type != EchoRequest_type_id &&
    (match payload_pattern with
     | none => true
     | some pat => pat == response.payload)

/-- Whether a receive event carries a packet accepted by matchesReply. -/
def RecvEvent.accepted (packet_id : Nat) (payload_pattern : Option (List Nat))
    (e : RecvEvent) : Bool :=
  match e.raw with
  | none => false
  | some p => matchesReply packet_id payload_pattern p

/-- The while loop of Communicator.listen_for, driven by the trace of
receive events. The loop guard `time_left > 0` is checked before each
receive; an accepted packet returns elapsed `timeout - time_left` with the
budget the accepting receive left; an exhausted trace stands for a
transport that yields nothing further, completing the timeout. -/
def listenLoop (packet_id : Nat) (timeout : ℚ)
    (payload_pattern : Option (List Nat)) :
    List RecvEvent → ℚ → Response
  | [], _ => Response.mk none timeout
  | e :: rest, time_left =>
    if time_left ≤ 0 then Response.mk none timeout
    else
      match e.raw with
      | none => listenLoop packet_id timeout payload_pattern rest e.time_left
      | some p =>
        if matchesReply packet_id payload_pattern p then
          Response.mk (some (Message.mk "" p e.source)) (timeout - e.time_left)
        else
          listenLoop packet_id timeout payload_pattern rest e.time_left

/-- Communicator.listen_for: run the receive loop with the full per-packet
timeout as the initial budget. -/
def listen_for (packet_id : Nat) (timeout : ℚ)
    (payload_pattern : Option (List Nat)) (events : List RecvEvent) : Response :=
  listenLoop packet_id timeout payload_pattern events timeout

/-- Communicator.increase_seq: add one, reset to 1 past 0xFFFF. -/
def increase_seq (sequence_number : Nat) : Nat :=
  let s := sequence_number + 1
  if s > 0xFFFF then 1 else s

/-- The attempt loop of Communicator.run, abstracted over the durations the
attempts take: `t` is the session time elapsed so far, each list entry is
how long one send-plus-listen attempt lasts, and the result is how many
attempts complete before the loop ends. After each append the loop breaks
when `overall_runtime + interval ≥ overall_timeout`; otherwise it sleeps
for `interval` and continues with the next payload. -/
def runAttempts (interval overall_timeout : ℚ) :
    List ℚ → ℚ → Nat
  | [], _ => 0
  | d :: rest, t =>
    let runtime := t + d
    if runtime + interval ≥ overall_timeout then 1
    else 1 + runAttempts interval overall_timeout rest (runtime + interval)

/-- The identifier-drawing loop of `ping` in __init__.py: keep drawing
random values until one is not in SEED_IDs, then append it. The draws are
the successive randint(0x1, 0xFFFF) results; none embeds a loop that never
found a free value within the given draws. -/
def allocate_id (inUse : List Nat) : List Nat → Option (Nat × List Nat)
  | [] => none
  | d :: ds => if d ∈ inUse then allocate_id inUse ds else some (d, inUse ++ [d])

/-- SEED_IDs.remove(seed_id): deletes the first occurrence. -/
def release_id (inUse : List Nat) (seed_id : Nat) : List Nat :=
  inUse.erase seed_id

/-- comm.run as seen by the identifier lifecycle: it either returns or
raises a transport-level fault. -/
def comm_run (fault : Bool) : Except String Unit :=
  if fault then Except.error "transport fault" else Except.ok ()

/-- The identifier lifecycle of `ping` (lines 70-86 of __init__.py) after a
successful draw: append seed_id to SEED_IDs, run the session, then remove
seed_id. There is no try/finally in the source, so a fault raised by
comm.run propagates before the remove line runs. Returns the final SEED_IDs
and the outcome. -/
def ping_id_lifecycle (seedIds : List Nat) (seed_id : Nat) (fault : Bool) :
    List Nat × Except String Unit :=
  let afterAlloc := seedIds ++ [seed_id]
  match comm_run fault with
  | Except.error e => (afterAlloc, Except.error e)
  | Except.ok _ => (release_id afterAlloc seed_id, Except.ok ())

/-- The elapsed times of a list of responses, for stating the statistics
claims. -/
def elapsedList (rs : List Response) : List ℚ :=
  rs.map Response.time_elapsed

/-- A successful Echo Reply packet for identifier 5, used as concrete input. -/
def replyPacket : ICMP :=
  ⟨0, 0, 5, [1, 2]⟩

/-- A timed-out attempt (no message), 30ms elapsed. -/
def timeoutResponse : Response :=
  ⟨none, 3/100⟩

/-- A successful attempt carrying an Echo Reply, 10ms elapsed. -/
def replyResponse : Response :=
  ⟨some ⟨"", replyPacket, "8.8.8.8"⟩, 1/100⟩

/-- The spec's aggregation example: 10ms success, 20ms success, 30ms timeout. -/
def exampleSeries : List Response :=
  [⟨some ⟨"", replyPacket, "s1"⟩, 1/100⟩,
   ⟨some ⟨"", replyPacket, "s2"⟩, 2/100⟩,
   ⟨none, 3/100⟩]

theorem appendAll_cons (rl : ResponseList) (r : Response) (rs : List Response) :
    rl.appendAll (r :: rs) = (rl.append r).appendAll rs :=
  rfl

theorem append_responses (rl : ResponseList) (r : Response) :
    (rl.append r)._responses = rl._responses ++ [r] := by
  simp only [ResponseList.append]
  split <;> rfl

theorem appendAll_responses (rl : ResponseList) (rs : List Response) :
    (rl.appendAll rs)._responses = rl._responses ++ rs := by
  induction rs generalizing rl with
  | nil => simp [ResponseList.appendAll]
  | cons r rs ih =>
    rw [appendAll_cons, ih, append_responses]
    simp

theorem appendAll_concat (rl : ResponseList) (rs : List Response) (r : Response) :
    rl.appendAll (rs ++ [r]) = (rl.appendAll rs).append r := by
  simp [ResponseList.appendAll, List.foldl_append]

theorem append_rtt_avg (rl : ResponseList) (r : Response) (h : rl._responses ≠ []) :
    (rl.append r).rtt_avg =
      (rl.rtt_avg * (rl._responses.length : ℚ) + r.time_elapsed) /
        ((rl._responses.length : ℚ) + 1) := by
  have hlen : rl._responses.length ≠ 0 := by simpa [List.length_eq_zero] using h
  simp [ResponseList.append, hlen, add_sub_cancel_right]

theorem append_rtt_min (rl : ResponseList) (r : Response) (h : rl._responses ≠ []) :
    (rl.append r).rtt_min =
      if r.time_elapsed < rl.rtt_min then r.time_elapsed else rl.rtt_min := by
  have hlen : rl._responses.length ≠ 0 := by simpa [List.length_eq_zero] using h
  simp [ResponseList.append, hlen]

theorem append_rtt_max (rl : ResponseList) (r : Response) (h : rl._responses ≠ []) :
    (rl.append r).rtt_max =
      if r.time_elapsed > rl.rtt_max then r.time_elapsed else rl.rtt_max := by
  have hlen : rl._responses.length ≠ 0 := by simpa [List.length_eq_zero] using h
  simp [ResponseList.append, hlen]

theorem append_packets_lost (rl : ResponseList) (r : Response) :
    (rl.append r).packets_lost =
      rl.packets_lost +
        (if r.success then 0 else 1 - rl.packets_lost) /
          ((rl._responses.length : ℚ) + 1) := by
  simp only [ResponseList.append]
  split <;> simp

theorem elapsedList_concat (rs : List Response) (r : Response) :
    elapsedList (rs ++ [r]) = elapsedList rs ++ [r.time_elapsed] := by
  simp [elapsedList]

/-- Running statistics invariant: after appending a nonempty list of
responses to the empty ResponseList, the average times the count is the sum
of the elapsed times, and rtt_min / rtt_max are attained lower / upper
bounds of the elapsed times. -/
theorem appendAll_stats (rs : List Response) : rs ≠ [] →
    (ResponseList.empty.appendAll rs).rtt_avg * (rs.length : ℚ) = (elapsedList rs).sum ∧
    (ResponseList.empty.appendAll rs).rtt_min ∈ elapsedList rs ∧
    (∀ q ∈ elapsedList rs, (ResponseList.empty.appendAll rs).rtt_min ≤ q) ∧
    (ResponseList.empty.appendAll rs).rtt_max ∈ elapsedList rs ∧
    (∀ q ∈ elapsedList rs, q ≤ (ResponseList.empty.appendAll rs).rtt_max) := by
  induction rs using List.reverseRecOn with
  | nil => intro h; cases h rfl
  | append_singleton rs r ih =>
    intro _
    rcases eq_or_ne rs [] with hrs | hrs
    · subst hrs
      simp [ResponseList.appendAll, ResponseList.append, ResponseList.empty, elapsedList]
    · obtain ⟨havg, hminmem, hminle, hmaxmem, hmaxle⟩ := ih hrs
      have hresp : (ResponseList.empty.appendAll rs)._responses = rs := by
        simpa [ResponseList.empty] using appendAll_responses ResponseList.empty rs
      have hne : (ResponseList.empty.appendAll rs)._responses ≠ [] := by
        rw [hresp]; exact hrs
      have hlenq : ((rs.length : ℚ) + 1) ≠ 0 := by positivity
      rw [appendAll_concat]
      have h1 := append_rtt_avg (ResponseList.empty.appendAll rs) r hne
      have h2 := append_rtt_min (ResponseList.empty.appendAll rs) r hne
      have h3 := append_rtt_max (ResponseList.empty.appendAll rs) r hne
      rw [hresp] at h1
      refine ⟨?_, ?_, ?_, ?_, ?_⟩
      · rw [h1, elapsedList_concat, List.sum_append, List.length_append]
        push_cast [List.length_singleton]
        rw [div_mul_cancel₀ _ hlenq, havg]
        simp
      · rw [h2, elapsedList_concat]
        rcases lt_or_le r.time_elapsed (ResponseList.empty.appendAll rs).rtt_min with hc | hc
        · rw [if_pos hc]
          exact List.mem_append_right _ (by simp)
        · rw [if_neg (not_lt.mpr hc)]
          exact List.mem_append_left _ hminmem
      · rw [h2, elapsedList_concat]
        intro q hq
        rcases List.mem_append.mp hq with hq | hq
        · rcases lt_or_le r.time_elapsed (ResponseList.empty.appendAll rs).rtt_min with hc | hc
          · rw [if_pos hc]
            exact le_trans (le_of_lt hc) (hminle q hq)
          · rw [if_neg (not_lt.mpr hc)]
            exact hminle q hq
        · have hq' : q = r.time_elapsed := by simpa using hq
          rcases lt_or_le r.time_elapsed (ResponseList.empty.appendAll rs).rtt_min with hc | hc
          · rw [if_pos hc]
            exact le_of_eq hq'.symm
          · rw [if_neg (not_lt.mpr hc), hq']
            exact hc
      · rw [h3, elapsedList_concat]
        rcases lt_or_le (ResponseList.empty.appendAll rs).rtt_max r.time_elapsed with hc | hc
        · rw [if_pos hc]
          exact List.mem_append_right _ (by simp)
        · rw [if_neg (not_lt.mpr hc)]
          exact List.mem_append_left _ hmaxmem
      · rw [h3, elapsedList_concat]
        intro q hq
        rcases List.mem_append.mp hq with hq | hq
        · rcases lt_or_le (ResponseList.empty.appendAll rs).rtt_max r.time_elapsed with hc | hc
          · rw [if_pos hc]
            exact le_trans (hmaxle q hq) (le_of_lt hc)
          · rw [if_neg (not_lt.mpr hc)]
            exact hmaxle q hq
        · have hq' : q = r.time_elapsed := by simpa using hq
          rcases lt_or_le (ResponseList.empty.appendAll rs).rtt_max r.time_elapsed with hc | hc
          · rw [if_pos hc]
            exact le_of_eq hq'
          · rw [if_neg (not_lt.mpr hc), hq']
            exact hc

theorem listenLoop_nil (packet_id : Nat) (timeout : ℚ) (pat : Option (List Nat))
    (tl : ℚ) :
    listenLoop packet_id timeout pat [] tl = Response.mk none timeout :=
  rfl

theorem listenLoop_cons (packet_id : Nat) (timeout : ℚ) (pat : Option (List Nat))
    (raw : Option ICMP) (src : String) (tleft : ℚ) (rest : List RecvEvent) (tl : ℚ) :
    listenLoop packet_id timeout pat (RecvEvent.mk raw src tleft :: rest) tl =
      if tl ≤ 0 then Response.mk none timeout
      else
        match raw with
        | none => listenLoop packet_id timeout pat rest tleft
        | some p =>
          if matchesReply packet_id pat p then
            Response.mk (some (Message.mk "" p src)) (timeout - tleft)
          else listenLoop packet_id timeout pat rest tleft :=
  rfl

/-- If no event of the trace carries an accepted packet, the receive loop
runs the budget out and reports a timeout. -/
theorem listenLoop_no_match (packet_id : Nat) (timeout : ℚ) (pat : Option (List Nat)) :
    ∀ (events : List RecvEvent) (tl : ℚ),
      (∀ e ∈ events, e.accepted packet_id pat = false) →
      listenLoop packet_id timeout pat events tl = Response.mk none timeout := by
  intro events
  induction events with
  | nil => intro tl _; rfl
  | cons e rest ih =>
    intro tl hall
    obtain ⟨raw, src, tleft⟩ := e
    have he := hall _ (List.mem_cons_self _ rest)
    have hrest : ∀ f ∈ rest, f.accepted packet_id pat = false :=
      fun f hf => hall f (List.mem_cons_of_mem _ hf)
    rw [listenLoop_cons]
    rcases le_or_lt tl 0 with h0 | h0
    · rw [if_pos h0]
    · rw [if_neg (not_le.mpr h0)]
      cases raw with
      | none => exact ih tleft hrest
      | some p =>
        have hm : matchesReply packet_id pat p = false := by
          simpa [RecvEvent.accepted] using he
        simp only [hm, if_false, Bool.false_eq_true]
        exact ih tleft hrest

/-- If the budget stays positive through a prefix of non-accepted events and
then an accepted packet arrives, the loop returns that packet with elapsed
time equal to the timeout minus the budget the accepting receive left. -/
theorem listenLoop_matched (packet_id : Nat) (timeout : ℚ) (pat : Option (List Nat))
    (e : RecvEvent) (p : ICMP) (rest : List RecvEvent) :
    ∀ (pre : List RecvEvent) (tl : ℚ), 0 < tl →
      (∀ f ∈ pre, 0 < f.time_left ∧ f.accepted packet_id pat = false) →
      e.raw = some p → matchesReply packet_id pat p = true →
      listenLoop packet_id timeout pat (pre ++ e :: rest) tl =
        Response.mk (some (Message.mk "" p e.source)) (timeout - e.time_left) := by
  intro pre
  induction pre with
  | nil =>
    intro tl htl _ hraw hm
    obtain ⟨raw, src, tleft⟩ := e
    cases hraw
    rw [List.nil_append, listenLoop_cons, if_neg (not_le.mpr htl)]
    simp only [hm, if_true]
  | cons f pre ih =>
    intro tl htl hpre hraw hm
    obtain ⟨fraw, fsrc, ftleft⟩ := f
    have hf := hpre _ (List.mem_cons_self _ pre)
    have hpre2 : ∀ g ∈ pre, 0 < g.time_left ∧ g.accepted packet_id pat = false :=
      fun g hg => hpre g (List.mem_cons_of_mem _ hg)
    rw [List.cons_append, listenLoop_cons, if_neg (not_le.mpr htl)]
    cases fraw with
    | none => exact ih ftleft hf.1 hpre2 hraw hm
    | some q =>
      have hq : matchesReply packet_id pat q = false := by
        simpa [RecvEvent.accepted] using hf.2
      simp only [hq, if_false, Bool.false_eq_true]
      exact ih ftleft hf.1 hpre2 hraw hm

theorem runAttempts_le_one :
    ∀ (ds : List ℚ) (t : ℚ), (∀ d ∈ ds, 0 ≤ d) → 3/2 ≤ t →
      runAttempts 1 (5/2) ds t ≤ 1 := by
  intro ds t hds ht
  cases ds with
  | nil => simp [runAttempts]
  | cons d rest =>
    have hd : 0 ≤ d := hds d (List.mem_cons_self d rest)
    rw [runAttempts, if_pos (by linarith)]

theorem runAttempts_le_two :
    ∀ (ds : List ℚ) (t : ℚ), (∀ d ∈ ds, 0 ≤ d) → 1/2 ≤ t →
      runAttempts 1 (5/2) ds t ≤ 2 := by
  intro ds t hds ht
  cases ds with
  | nil => simp [runAttempts]
  | cons d rest =>
    have hd : 0 ≤ d := hds d (List.mem_cons_self d rest)
    have hrest : ∀ x ∈ rest, (0:ℚ) ≤ x := fun x hx => hds x (List.mem_cons_of_mem d hx)
    rw [runAttempts]
    split
    · omega
    · have := runAttempts_le_one rest (t + d + 1) hrest (by linarith)
      omega

theorem runAttempts_le_three :
    ∀ (ds : List ℚ) (t : ℚ), (∀ d ∈ ds, 0 ≤ d) → -(1/2) ≤ t →
      runAttempts 1 (5/2) ds t ≤ 3 := by
  intro ds t hds ht
  cases ds with
  | nil => simp [runAttempts]
  | cons d rest =>
    have hd : 0 ≤ d := hds d (List.mem_cons_self d rest)
    have hrest : ∀ x ∈ rest, (0:ℚ) ≤ x := fun x hx => hds x (List.mem_cons_of_mem d hx)
    rw [runAttempts]
    split
    · omega
    · have := runAttempts_le_two rest (t + d + 1) hrest (by linarith)
      omega

/-- What a successful draw loop produces: the returned identifier is one of
the draws, was not in use, and the in-use list grows by exactly it. -/
theorem allocate_id_spec (inUse : List Nat) :
    ∀ (draws : List Nat) (id : Nat) (out : List Nat),
      allocate_id inUse draws = some (id, out) →
      id ∈ draws ∧ id ∉ inUse ∧ out = inUse ++ [id] := by
  intro draws
  induction draws with
  | nil => intro id out h; cases h
  | cons d ds ih =>
    intro id out h
    by_cases hd : d ∈ inUse
    · rw [allocate_id, if_pos hd] at h
      obtain ⟨h1, h2, h3⟩ := ih id out h
      exact ⟨List.mem_cons_of_mem d h1, h2, h3⟩
    · rw [allocate_id, if_neg hd] at h
      simp only [Option.some.injEq, Prod.mk.injEq] at h
      obtain ⟨h1, h2⟩ := h
      subst h1
      subst h2
      exact ⟨List.mem_cons_self _ _, hd, rfl⟩

theorem erase_append_of_not_mem (a : Nat) (l1 l2 : List Nat) (h : a ∉ l1) :
    (l1 ++ l2).erase a = l1 ++ l2.erase a := by
  induction l1 with
  | nil => rfl
  | cons b l1 ih =>
    simp only [List.mem_cons, not_or] at h
    have hb : (b == a) = false := beq_eq_false_iff_ne.mpr fun he => h.1 he.symm
    simp [List.erase_cons, hb, ih h.2]

/-- C1: the incrementally updated packets_lost of ResponseList.append is
claimed to equal the number of unsuccessful results divided by the count.
On the sequence timeout-then-reply the source keeps packets_lost at 1,
while one failure out of two results gives 1/2, so the stored value is not
the failure fraction. -/
theorem packets_lost_not_failure_fraction :
    ((ResponseList.empty.append timeoutResponse).append replyResponse).packets_lost = 1 ∧
    ((ResponseList.empty.append timeoutResponse).append replyResponse).packets_lost ≠ 1/2 := by
  have h : ((ResponseList.empty.append timeoutResponse).append replyResponse).packets_lost = 1 := by
    norm_num [ResponseList.empty, ResponseList.append, timeoutResponse, replyResponse,
      Response.success, Response.error_message, replyPacket]
  refine ⟨h, ?_⟩
  rw [h]
  norm_num

/-- C2: on an empty response series, ResponseList.success is claimed to
return false for every threshold without raising. The source instead
divides by zero on Most (embedded as none) and returns true on All; only
One returns false. -/
theorem success_empty_eval :
    ResponseList.empty.success SuccessOn.Most = none ∧
    ResponseList.empty.success SuccessOn.All = some true ∧
    ResponseList.empty.success SuccessOn.One = some false :=
  ⟨rfl, rfl, rfl⟩

/-- C3: ping is claimed to release the allocated session identifier on
every exit path. The source has no try/finally around comm.run, so when the
run raises a transport fault the identifier stays in SEED_IDs, while a
normal run does remove it. -/
theorem ping_fault_leaks_identifier :
    ping_id_lifecycle [] 5 true = ([5], Except.error "transport fault") ∧
    ping_id_lifecycle [] 5 false = ([], Except.ok ()) :=
  ⟨rfl, rfl⟩

/-- C4: listen_for returns message none with elapsed equal to the
per-packet timeout when no received packet is accepted, and returns the
matched message with elapsed equal to the timeout minus the remaining
budget when an accepted packet arrives. -/
theorem listen_for_timeout_and_match (packet_id : Nat) (timeout : ℚ)
    (payload_pattern : Option (List Nat)) :
    (∀ events : List RecvEvent,
        (∀ e ∈ events, e.accepted packet_id payload_pattern = false) →
        listen_for packet_id timeout payload_pattern events = Response.mk none timeout) ∧
    (∀ (pre : List RecvEvent) (e : RecvEvent) (rest : List RecvEvent) (p : ICMP),
        0 < timeout →
        (∀ f ∈ pre, 0 < f.time_left ∧ f.accepted packet_id payload_pattern = false) →
        e.raw = some p →
        matchesReply packet_id payload_pattern p = true →
        listen_for packet_id timeout payload_pattern (pre ++ e :: rest) =
          Response.mk (some (Message.mk "" p e.source)) (timeout - e.time_left)) := by
  constructor
  · intro events h
    exact listenLoop_no_match packet_id timeout payload_pattern events timeout h
  · intro pre e rest p ht hpre hraw hm
    exact listenLoop_matched packet_id timeout payload_pattern e p rest pre timeout ht hpre hraw hm

/-- Witness for C4: a trace with one foreign packet then the matching reply
yields that reply with elapsed 2 - 1; the instantiation below also passes
through the timeout clause hypotheses. -/
theorem listen_for_timeout_and_match_witness :
    listen_for 5 2 (some [1, 2])
        [RecvEvent.mk (some (ICMP.mk 8 0 5 [1, 2])) "x" (3/2),
         RecvEvent.mk (some (ICMP.mk 0 0 5 [1, 2])) "y" 1] =
      Response.mk (some (Message.mk "" (ICMP.mk 0 0 5 [1, 2]) "y")) (2 - 1) := by
  have h := (listen_for_timeout_and_match 5 2 (some [1, 2])).2
    [RecvEvent.mk (some (ICMP.mk 8 0 5 [1, 2])) "x" (3/2)]
    (RecvEvent.mk (some (ICMP.mk 0 0 5 [1, 2])) "y" 1) [] (ICMP.mk 0 0 5 [1, 2])
    (by norm_num)
    (by
      intro f hf
      simp only [List.mem_singleton] at hf
      subst hf
      exact ⟨by norm_num, by simp [RecvEvent.accepted, matchesReply, EchoRequest_type_id]⟩)
    rfl (by simp [matchesReply, EchoRequest_type_id])
  simpa using h

/-- C5: a received packet is accepted exactly when its identifier equals
the request identifier, its type is not Echo Request, and, when
payload-matching is enabled, its payload equals the sent bytes. -/
theorem matchesReply_iff (packet_id : Nat) (payload_pattern : Option (List Nat))
    (response : ICMP) :
    matchesReply packet_id payload_pattern response = true ↔
      (response.id = packet_id ∧ response.message_type ≠ EchoRequest_type_id ∧
        ∀ p, payload_pattern = some p → p = response.payload) := by
  cases payload_pattern with
  | none => simp [matchesReply]
  | some pat =>
    simp only [matchesReply, Bool.and_eq_true, beq_iff_eq, bne_iff_ne, ne_eq,
      Option.some.injEq, forall_eq']
    tauto

/-- Witness for C5 at a concrete packet. -/
theorem matchesReply_iff_witness :
    matchesReply 5 (some [1, 2]) (ICMP.mk 0 0 5 [1, 2]) = true ↔
      ((ICMP.mk 0 0 5 [1, 2]).id = 5 ∧
        (ICMP.mk 0 0 5 [1, 2]).message_type ≠ EchoRequest_type_id ∧
        ∀ p, (some [1, 2] : Option (List Nat)) = some p →
          p = (ICMP.mk 0 0 5 [1, 2]).payload) :=
  matchesReply_iff 5 (some [1, 2]) (ICMP.mk 0 0 5 [1, 2])

/-- C6: after appending a nonempty list of results, rtt_avg is the
arithmetic mean of the elapsed times and rtt_min / rtt_max are their
minimum / maximum (stated as attained bounds); on the first append all
three equal that result's elapsed time. -/
theorem rtt_stats_are_mean_min_max (rs : List Response) (h : rs ≠ []) :
    (ResponseList.empty.appendAll rs).rtt_avg = (elapsedList rs).sum / (rs.length : ℚ) ∧
    (ResponseList.empty.appendAll rs).rtt_min ∈ elapsedList rs ∧
    (∀ q ∈ elapsedList rs, (ResponseList.empty.appendAll rs).rtt_min ≤ q) ∧
    (ResponseList.empty.appendAll rs).rtt_max ∈ elapsedList rs ∧
    (∀ q ∈ elapsedList rs, q ≤ (ResponseList.empty.appendAll rs).rtt_max) ∧
    ∀ r : Response,
      (ResponseList.empty.append r).rtt_avg = r.time_elapsed ∧
      (ResponseList.empty.append r).rtt_min = r.time_elapsed ∧
      (ResponseList.empty.append r).rtt_max = r.time_elapsed := by
  obtain ⟨havg, h2, h3, h4, h5⟩ := appendAll_stats rs h
  have hlen : (rs.length : ℚ) ≠ 0 := by
    have hl : rs.length ≠ 0 := by simpa [List.length_eq_zero] using h
    exact_mod_cast hl
  refine ⟨?_, h2, h3, h4, h5, ?_⟩
  · rw [eq_div_iff hlen]
    exact havg
  · intro r
    refine ⟨?_, ?_, ?_⟩ <;> simp [ResponseList.append, ResponseList.empty]

/-- Witness for C6: the spec's example series (10ms success, 20ms success,
30ms timeout) yields rtt_avg = 20ms, rtt_min = 10ms, rtt_max = 30ms. -/
theorem rtt_stats_are_mean_min_max_witness :
    (ResponseList.empty.appendAll exampleSeries).rtt_avg = 2/100 ∧
    (ResponseList.empty.appendAll exampleSeries).rtt_min = 1/100 ∧
    (ResponseList.empty.appendAll exampleSeries).rtt_max = 3/100 := by
  have h := rtt_stats_are_mean_min_max exampleSeries (by simp [exampleSeries])
  obtain ⟨havg, hminmem, hminle, hmaxmem, hmaxle, _⟩ := h
  refine ⟨?_, ?_, ?_⟩
  · rw [havg]
    norm_num [exampleSeries, elapsedList]
  · have hb := hminle (1/100) (by norm_num [exampleSeries, elapsedList])
    have hm : (ResponseList.empty.appendAll exampleSeries).rtt_min = 1/100 ∨
        (ResponseList.empty.appendAll exampleSeries).rtt_min = 2/100 ∨
        (ResponseList.empty.appendAll exampleSeries).rtt_min = 3/100 := by
      simpa [exampleSeries, elapsedList] using hminmem
    rcases hm with hm | hm | hm
    · exact hm
    · exfalso; rw [hm] at hb; norm_num at hb
    · exfalso; rw [hm] at hb; norm_num at hb
  · have hb := hmaxle (3/100) (by norm_num [exampleSeries, elapsedList])
    have hm : (ResponseList.empty.appendAll exampleSeries).rtt_max = 1/100 ∨
        (ResponseList.empty.appendAll exampleSeries).rtt_max = 2/100 ∨
        (ResponseList.empty.appendAll exampleSeries).rtt_max = 3/100 := by
      simpa [exampleSeries, elapsedList] using hmaxmem
    rcases hm with hm | hm | hm
    · exfalso; rw [hm] at hb; norm_num at hb
    · exfalso; rw [hm] at hb; norm_num at hb
    · exact hm

/-- C7 counterexample: with overall_timeout 2.5 and interval 1, ten queued
attempts of 0.1s each yield three completed attempts, not at most two. -/
theorem overall_deadline_example_three_attempts :
    runAttempts 1 (5/2) (List.replicate 10 (1/10)) 0 = 3 ∧
    ¬ runAttempts 1 (5/2) (List.replicate 10 (1/10)) 0 ≤ 2 := by
  have h : runAttempts 1 (5/2) (List.replicate 10 (1/10)) 0 = 3 := by
    norm_num [runAttempts, List.replicate]
  exact ⟨h, by omega⟩

/-- C7 (amended): after each appended attempt the loop stops immediately
when the elapsed session time plus the interval reaches the overall
timeout, otherwise it sleeps and proceeds to the next send; with
overall_timeout 2.5s and interval 1s at most three attempts run regardless
of the configured count. -/
theorem overall_deadline_behavior :
    (∀ (interval overall_timeout t d : ℚ) (rest : List ℚ),
        overall_timeout ≤ t + d + interval →
        runAttempts interval overall_timeout (d :: rest) t = 1) ∧
    (∀ (interval overall_timeout t d : ℚ) (rest : List ℚ),
        t + d + interval < overall_timeout →
        runAttempts interval overall_timeout (d :: rest) t =
          1 + runAttempts interval overall_timeout rest (t + d + interval)) ∧
    (∀ ds : List ℚ, (∀ d ∈ ds, 0 ≤ d) → runAttempts 1 (5/2) ds 0 ≤ 3) := by
  refine ⟨?_, ?_, ?_⟩
  · intro interval ot t d rest hstop
    rw [runAttempts, if_pos (by linarith)]
  · intro interval ot t d rest hgo
    rw [runAttempts, if_neg (by simp only [ge_iff_le, not_le]; linarith)]
  · intro ds hds
    exact runAttempts_le_three ds 0 hds (by norm_num)

/-- Witness for C7 (amended) on a concrete duration list. -/
theorem overall_deadline_behavior_witness :
    runAttempts 1 (5/2) [1/10, 1/10, 1/10, 1/10] 0 ≤ 3 := by
  apply overall_deadline_behavior.2.2
  intro d hd
  fin_cases hd <;> norm_num

/-- C8: increase_seq adds one below 65535 and wraps 65535 to 1. -/
theorem increase_seq_wraps (n : Nat) (h1 : 1 ≤ n) (h2 : n ≤ 65535) :
    (n < 65535 → increase_seq n = n + 1) ∧ (n = 65535 → increase_seq n = 1) := by
  constructor
  · intro h
    simp only [increase_seq]
    rw [if_neg (by omega)]
  · intro h
    subst h
    rfl

/-- Witness for C8: wrap at 65535 and a plain increment at 7. -/
theorem increase_seq_wraps_witness :
    increase_seq 65535 = 1 ∧ increase_seq 7 = 8 :=
  ⟨(increase_seq_wraps 65535 (by norm_num) (by norm_num)).2 rfl,
   (increase_seq_wraps 7 (by norm_num) (by norm_num)).1 (by norm_num)⟩

/-- C9: an allocated identifier is one of the randint draws (hence in
[1, 65535]), was not in use when allocated, and is recorded in-use; any
identifier allocated while it is held differs from it; releasing it (erase)
restores the in-use list and makes the value allocatable again. -/
theorem allocate_id_unique (inUse draws : List Nat) (id : Nat) (out : List Nat)
    (hdraws : ∀ d ∈ draws, 1 ≤ d ∧ d ≤ 65535)
    (halloc : allocate_id inUse draws = some (id, out)) :
    (1 ≤ id ∧ id ≤ 65535) ∧ id ∉ inUse ∧ out = inUse ++ [id] ∧
    (∀ (draws2 : List Nat) (id2 : Nat) (out2 : List Nat),
        allocate_id out draws2 = some (id2, out2) → id2 ≠ id) ∧
    release_id out id = inUse ∧
    allocate_id (release_id out id) [id] = some (id, inUse ++ [id]) := by
  obtain ⟨hmem, hnotin, hout⟩ := allocate_id_spec inUse draws id out halloc
  have hrange := hdraws id hmem
  have hrel : release_id out id = inUse := by
    rw [hout, release_id, erase_append_of_not_mem id inUse [id] hnotin]
    simp
  refine ⟨hrange, hnotin, hout, ?_, hrel, ?_⟩
  · intro draws2 id2 out2 h2 he
    obtain ⟨_, hnotin2, _⟩ := allocate_id_spec out draws2 id2 out2 h2
    exact hnotin2 (by rw [hout, he]; exact List.mem_append_right _ (by simp))
  · rw [hrel, allocate_id, if_neg hnotin]

/-- Witness for C9: with identifier 3 held, the draws 3 then 5 allocate 5;
its release restores the held set. -/
theorem allocate_id_unique_witness :
    (1 ≤ 5 ∧ 5 ≤ 65535) ∧ 5 ∉ ([3] : List Nat) ∧ ([3, 5] : List Nat) = [3] ++ [5] ∧
    release_id [3, 5] 5 = [3] ∧
    allocate_id (release_id [3, 5] 5) [5] = some (5, [3] ++ [5]) := by
  have h := allocate_id_unique [3] [3, 5] 5 [3, 5]
    (by intro d hd; fin_cases hd <;> norm_num)
    (by rfl)
  exact ⟨h.1, h.2.1, h.2.2.1, h.2.2.2.2.1, h.2.2.2.2.2⟩

/-- C10: after appending any nonempty list of results, the running average
lies between the running minimum and maximum. -/
theorem rtt_avg_between_min_max (rs : List Response) (h : rs ≠ []) :
    (ResponseList.empty.appendAll rs).rtt_min ≤ (ResponseList.empty.appendAll rs).rtt_avg ∧
    (ResponseList.empty.appendAll rs).rtt_avg ≤ (ResponseList.empty.appendAll rs).rtt_max := by
  obtain ⟨havg, _, hminle, _, hmaxle⟩ := appendAll_stats rs h
  have hl : rs.length ≠ 0 := by simpa [List.length_eq_zero] using h
  have hlen0 : (0:ℚ) < (rs.length : ℚ) := by exact_mod_cast Nat.pos_of_ne_zero hl
  have hlenel : (elapsedList rs).length = rs.length := by simp [elapsedList]
  constructor
  · have hs := List.card_nsmul_le_sum (elapsedList rs)
      (ResponseList.empty.appendAll rs).rtt_min hminle
    rw [hlenel, nsmul_eq_mul] at hs
    have h2 : (ResponseList.empty.appendAll rs).rtt_min * (rs.length : ℚ) ≤
        (ResponseList.empty.appendAll rs).rtt_avg * (rs.length : ℚ) := by
      rw [havg]
      linarith [hs]
    exact le_of_mul_le_mul_right h2 hlen0
  · have hs := List.sum_le_card_nsmul (elapsedList rs)
      (ResponseList.empty.appendAll rs).rtt_max hmaxle
    rw [hlenel, nsmul_eq_mul] at hs
    have h2 : (ResponseList.empty.appendAll rs).rtt_avg * (rs.length : ℚ) ≤
        (ResponseList.empty.appendAll rs).rtt_max * (rs.length : ℚ) := by
      rw [havg]
      linarith [hs]
    exact le_of_mul_le_mul_right h2 hlen0

/-- Witness for C10 on the example series. -/
theorem rtt_avg_between_min_max_witness :
    (ResponseList.empty.appendAll exampleSeries).rtt_min ≤
      (ResponseList.empty.appendAll exampleSeries).rtt_avg ∧
    (ResponseList.empty.appendAll exampleSeries).rtt_avg ≤
      (ResponseList.empty.appendAll exampleSeries).rtt_max :=
  rtt_avg_between_min_max exampleSeries (by simp [exampleSeries])

end PythonPing
